import Mathlib

/-!
Shallow embedding of the cédula-lookup web service (Go, `cmd/web/main.go`
and its scraping variants). Go strings are modelled as `List Char`; the
handlers' network and JSON effects are modelled by passing the decoded
request and the upstream outcome as explicit parameters.
-/

namespace Cedula

/-- The set of white-space characters recognised by Go's `unicode.IsSpace`
(`strings.Fields` and `strings.TrimSpace` split/trim on these):
ASCII white space plus NEL, NBSP and the Unicode `White_Space` points. -/
def isGoSpace (c : Char) : Bool :=
  c.toNat = 0x20 || (0x9 ≤ c.toNat && c.toNat ≤ 0xD) ||
  c.toNat = 0x85 || c.toNat = 0xA0 || c.toNat = 0x1680 ||
  (0x2000 ≤ c.toNat && c.toNat ≤ 0x200A) ||
  c.toNat = 0x2028 || c.toNat = 0x2029 ||
  c.toNat = 0x202F || c.toNat = 0x205F || c.toNat = 0x3000

/-- Negation of `isGoSpace`, the predicate satisfied by token characters. -/
def notSpace (c : Char) : Bool := !isGoSpace c

/-- `strings.TrimSpace`: drop leading and trailing white space. -/
def trimSpace (s : List Char) : List Char :=
  (((s.dropWhile isGoSpace).reverse).dropWhile isGoSpace).reverse

/-- Single pass of `strings.Fields`: `acc` holds the (reversed) token
being read; a space flushes it, the end flushes a final non-empty token. -/
def fieldsAux : List Char → List Char → List (List Char)
  | [], acc => if acc.isEmpty then [] else [acc.reverse]
  | c :: cs, acc =>
    if isGoSpace c then
      if acc.isEmpty then fieldsAux cs [] else acc.reverse :: fieldsAux cs []
    else fieldsAux cs (c :: acc)

/-- `strings.Fields`: split a string around runs of white space into the
list of its maximal non-space runs. -/
def fields (s : List Char) : List (List Char) := fieldsAux s []

/-- `strings.Join(ts, " ")`: interleave a single space between tokens. -/
def joinTokens : List (List Char) → List Char
  | [] => []
  | [t] => t
  | t :: ts => t ++ ' ' :: joinTokens ts

/-- The response struct `CedulaResponse{Nombre, Apellido}`. -/
structure CedulaResponse where
  nombre : List Char
  apellido : List Char
deriving DecidableEq, Repr

/-- The token-count case analysis of `consultarCedula` (main.go lines
127-145): two words keep both as-is, three words give the first word and
join the rest, four or more split at `len(palabras) / 2`; fewer than two
words return the trimmed string with an empty surname. -/
def splitCases (palabras : List (List Char)) (nombreCompleto : List Char) :
    CedulaResponse :=
  if 2 ≤ palabras.length then
    if palabras.length = 2 then
      ⟨palabras.getD 0 [], palabras.getD 1 []⟩
    else if palabras.length = 3 then
      ⟨palabras.getD 0 [], joinTokens (palabras.drop 1)⟩
    else
      let mitad := palabras.length / 2
      ⟨joinTokens (palabras.take mitad), joinTokens (palabras.drop mitad)⟩
  else
    ⟨nombreCompleto, []⟩

/-- The name-splitting tail of `consultarCedula`:
`nombreCompleto = strings.TrimSpace(nombreCompleto)`,
`palabras := strings.Fields(nombreCompleto)`, then the case analysis. -/
def splitNombre (nombreCompleto : List Char) : CedulaResponse :=
  splitCases (fields (trimSpace nombreCompleto)) (trimSpace nombreCompleto)

/-- The uniform splitter of the scraping variant (`part_001` lines 74-81):
for two or more words always split at `len(palabras) / 2`. -/
def splitUniform (palabras : List (List Char)) : CedulaResponse :=
  ⟨joinTokens (palabras.take (palabras.length / 2)),
   joinTokens (palabras.drop (palabras.length / 2))⟩

/-- ASCII decimal digit, the character class `[0-9]`. -/
def isDigitChar (c : Char) : Bool := '0' ≤ c && c ≤ '9'

/-- Go's `len` on a string counts UTF-8 bytes. -/
def goLen (s : List Char) : Nat := (s.map Char.utf8Size).sum

/-- `regexp.MatchString("^[0-9]+$", s)`: the whole string is a non-empty
run of ASCII digits. -/
def matchDigitsAnchored (s : List Char) : Bool :=
  !s.isEmpty && s.all isDigitChar

/-- `validarCedula` (main.go lines 31-40): byte length exactly 10, then
the anchored all-digits regex. -/
def validarCedula (cedula : List Char) : Bool :=
  if goLen cedula ≠ 10 then false
  else matchDigitsAnchored cedula

/-- The `contribuyente` object of the SRI JSON payload. -/
structure Contribuyente where
  identificacion : List Char
  denominacion : List Char
  nombreComercial : List Char
  clase : List Char
deriving DecidableEq, Repr

/-- Outcome of `json.Unmarshal` on the upstream body. -/
inductive BodyParse where
  | malformed : BodyParse
  | parsed : Contribuyente → BodyParse
deriving DecidableEq, Repr

/-- Outcome of the outbound HTTP call made by `consultarCedula`:
a network/read failure, or a status code with a body. -/
inductive Upstream where
  | netErr : Upstream
  | resp : Nat → BodyParse → Upstream
deriving DecidableEq, Repr

/-- The error values `consultarCedula` can return, by message. -/
inductive ConsultaError where
  | peticionErr : ConsultaError
  | noEncontrada : ConsultaError
  | procesarErr : ConsultaError
deriving DecidableEq, Repr

/-- `strings.Contains(err.Error(), "no encontrada")`: of the messages
produced by `consultarCedula`, only "cédula no encontrada" contains it. -/
def esNoEncontrada : ConsultaError → Bool
  | .noEncontrada => true
  | _ => false

/-- `consultarCedula` (main.go lines 43-151) with the network outcome as
an explicit parameter: non-200 status and empty name fields map to the
"cédula no encontrada" error, parse failure to a processing error, and a
found name is trimmed, tokenized and split. -/
def consultarCedula (up : Upstream) : Except ConsultaError CedulaResponse :=
  match up with
  | .netErr => .error .peticionErr
  | .resp status body =>
    if status ≠ 200 then .error .noEncontrada
    else
      match body with
      | .malformed => .error .procesarErr
      | .parsed c =>
        let nombreCompleto :=
          if c.denominacion ≠ [] then c.denominacion
          else if c.nombreComercial ≠ [] then c.nombreComercial
          else []
        if nombreCompleto = [] then .error .noEncontrada
        else .ok (splitNombre nombreCompleto)

/-- Body of the JSON error responses. -/
structure ErrorResponse where
  error : List Char
deriving DecidableEq, Repr

/-- What the handler writes: status plus one of the JSON body shapes. -/
inductive RespBody where
  | empty : RespBody
  | errJson : ErrorResponse → RespBody
  | dataJson : CedulaResponse → RespBody
deriving DecidableEq, Repr

/-- Observable outcome of one handler invocation: the HTTP status, the
body, whether the CORS headers were set, and whether an outbound call to
the upstream source was made. -/
structure HandlerOutcome where
  status : Nat
  body : RespBody
  corsSet : Bool
  upstreamCalled : Bool
deriving DecidableEq, Repr

/-- Outcome of `json.NewDecoder(r.Body).Decode(&req)` for `CedulaRequest`. -/
inductive CedulaDecode where
  | invalid : CedulaDecode
  | ok : List Char → CedulaDecode
deriving DecidableEq, Repr

/-- `manejarConsulta` (main.go lines 160-211): CORS headers always set;
OPTIONS answered 200; non-POST answered 405; bad JSON 400; invalid cédula
400; otherwise the upstream is consulted and errors containing
"no encontrada" map to 404, other errors to 500, success to 200. -/
def manejarConsulta (method : List Char) (reqBody : CedulaDecode)
    (up : Upstream) : HandlerOutcome :=
  if method = "OPTIONS".toList then ⟨200, .empty, true, false⟩
  else if method ≠ "POST".toList then
    ⟨405, .errJson ⟨"Método no permitido".toList⟩, true, false⟩
  else
    match reqBody with
    | .invalid => ⟨400, .errJson ⟨"JSON inválido".toList⟩, true, false⟩
    | .ok cedula =>
      if !validarCedula cedula then
        ⟨400, .errJson
          ⟨"Cédula inválida. Debe contener exactamente 10 dígitos".toList⟩,
          true, false⟩
      else
        match consultarCedula up with
        | .error e =>
          if esNoEncontrada e then
            ⟨404, .errJson ⟨"Cédula no encontrada".toList⟩, true, true⟩
          else
            ⟨500, .errJson ⟨"Error interno del servidor al consultar".toList⟩,
              true, true⟩
        | .ok r => ⟨200, .dataJson r, true, true⟩

/-- ASCII word character, RE2's `\w` class `[0-9A-Za-z_]`, which defines
the word boundary `\b`. -/
def isWordChar (c : Char) : Bool :=
  isDigitChar c || ('A' ≤ c && c ≤ 'Z') || ('a' ≤ c && c ≤ 'z') || c = '_'

/-- The pattern `\b\d{10}\b` matches at position `i` of `body`: ten ASCII
digits start at `i`, the previous character (if any) is not a word
character, and the following character (if any) is not a word character. -/
def matchAt (body : List Char) (i : Nat) : Bool :=
  decide (i + 10 ≤ body.length) &&
  ((body.drop i).take 10).all isDigitChar &&
  (decide (i = 0) || !isWordChar (body.getD (i - 1) ' ')) &&
  (decide (i + 10 = body.length) || !isWordChar (body.getD (i + 10) ' '))

/-- Scan positions `i, i+1, ...` (at most `fuel` of them) for the first
match of `\b\d{10}\b`. -/
def findFrom (body : List Char) : Nat → Nat → Option Nat
  | 0, _ => none
  | fuel + 1, i => if matchAt body i then some i else findFrom body fuel (i + 1)

/-- `regexp.MustCompile("\b\d{10}\b").FindString(body)` as an `Option`:
the leftmost match of ten digits delimited by word boundaries, `none`
when `FindString` returns the empty string. -/
def findCedula (body : List Char) : Option (List Char) :=
  match findFrom body (body.length + 1) 0 with
  | some i => some ((body.drop i).take 10)
  | none => none

/-- The successful response of the reverse lookup,
`NombresResponse{Cedula, Nombres, Apellidos}`. -/
structure NombresResponse where
  cedula : List Char
  nombres : List Char
  apellidos : List Char
deriving DecidableEq, Repr

/-- Outcome of the outbound POST made by `consultarPorNombres`: a
network/read failure or the raw HTML text (the status is never checked). -/
inductive UpstreamText where
  | netErr : UpstreamText
  | resp : List Char → UpstreamText
deriving DecidableEq, Repr

/-- The error values `consultarPorNombres` can return, by message. -/
inductive NombresError where
  | peticionErr : NombresError
  | noInfo : NombresError
deriving DecidableEq, Repr

/-- `strings.Contains(err.Error(), "no se encontró información")`: of the
messages produced by `consultarPorNombres`, only the no-match one. -/
def esNoInfo : NombresError → Bool
  | .noInfo => true
  | _ => false

/-- `consultarPorNombres` (main.go lines 407-469) with the network outcome
as an explicit parameter: the first `\b\d{10}\b` match in the raw response
text is the answer; no match is the "no se encontró información" error. -/
def consultarPorNombres (nombres apellidos : List Char) (up : UpstreamText) :
    Except NombresError NombresResponse :=
  match up with
  | .netErr => .error .peticionErr
  | .resp body =>
    match findCedula body with
    | none => .error .noInfo
    | some ced => .ok ⟨ced, nombres, apellidos⟩

/-- Outcome of `json.NewDecoder(r.Body).Decode(&req)` for `NombresRequest`. -/
inductive NombresDecode where
  | invalid : NombresDecode
  | ok : List Char → List Char → NombresDecode
deriving DecidableEq, Repr

/-- What `manejarConsultaPorNombres` writes on success. -/
inductive RespBodyN where
  | empty : RespBodyN
  | errJson : ErrorResponse → RespBodyN
  | dataJson : NombresResponse → RespBodyN
deriving DecidableEq, Repr

/-- Observable outcome of one `manejarConsultaPorNombres` invocation. -/
structure HandlerOutcomeN where
  status : Nat
  body : RespBodyN
  corsSet : Bool
  upstreamCalled : Bool
deriving DecidableEq, Repr

/-- `manejarConsultaPorNombres` (main.go lines 524-575): CORS headers
always set; OPTIONS answered 200; non-POST answered 405; bad JSON 400;
blank names 400; otherwise errors containing "no se encontró información"
map to 404, other errors to 500, success to 200. -/
def manejarConsultaPorNombres (method : List Char) (reqBody : NombresDecode)
    (up : UpstreamText) : HandlerOutcomeN :=
  if method = "OPTIONS".toList then ⟨200, .empty, true, false⟩
  else if method ≠ "POST".toList then
    ⟨405, .errJson ⟨"Método no permitido".toList⟩, true, false⟩
  else
    match reqBody with
    | .invalid => ⟨400, .errJson ⟨"JSON inválido".toList⟩, true, false⟩
    | .ok nombres apellidos =>
      if trimSpace nombres = [] ∨ trimSpace apellidos = [] then
        ⟨400, .errJson ⟨"Se requieren nombres y apellidos".toList⟩, true, false⟩
      else
        match consultarPorNombres nombres apellidos up with
        | .error e =>
          if esNoInfo e then
            ⟨404, .errJson
              ⟨"No se encontró información para los nombres proporcionados".toList⟩,
              true, true⟩
          else
            ⟨500, .errJson ⟨"Error interno del servidor al consultar".toList⟩,
              true, true⟩
        | .ok r => ⟨200, .dataJson r, true, true⟩

/-! ### Lemmas about `fields`, `joinTokens` and `trimSpace` -/

theorem fieldsAux_acc (cs : List Char) :
    ∀ acc, acc ≠ [] →
      fieldsAux cs acc =
        (acc.reverse ++ cs.takeWhile notSpace) ::
          fieldsAux (cs.dropWhile notSpace) [] := by
  induction cs with
  | nil =>
    intro acc h
    simp [fieldsAux, List.isEmpty_iff, h]
  | cons d ds ih =>
    intro acc h
    by_cases hd : isGoSpace d = true
    · simp [fieldsAux, hd, List.isEmpty_iff, h, List.takeWhile_cons, notSpace,
        List.dropWhile_cons]
    · simp only [Bool.not_eq_true] at hd
      have hns : notSpace d = true := by simp [notSpace, hd]
      simp [fieldsAux, hd, List.takeWhile_cons, List.dropWhile_cons, hns,
        ih (d :: acc) (by simp)]

theorem fields_cons_space (c : Char) (cs : List Char) (h : isGoSpace c = true) :
    fields (c :: cs) = fields cs := by
  simp [fields, fieldsAux, h]

theorem fields_cons_notspace (c : Char) (cs : List Char)
    (h : isGoSpace c = false) :
    fields (c :: cs) =
      (c :: cs.takeWhile notSpace) :: fields (cs.dropWhile notSpace) := by
  simp [fields, fieldsAux, h, fieldsAux_acc cs [c] (by simp)]

theorem fields_induction (motive : List Char → Prop) (h1 : motive [])
    (h2 : ∀ c cs, isGoSpace c = true → motive cs → motive (c :: cs))
    (h3 : ∀ c cs, isGoSpace c = false → motive (cs.dropWhile notSpace) →
      motive (c :: cs)) :
    ∀ l, motive l := by
  suffices h : ∀ n l, l.length = n → motive l from fun l => h l.length l rfl
  intro n
  induction n using Nat.strong_induction_on with
  | _ n ih =>
    intro l hn
    match l with
    | [] => exact h1
    | c :: cs =>
      by_cases hc : isGoSpace c = true
      · exact h2 c cs hc (ih cs.length (by simp [← hn]) cs rfl)
      · have hlen : (cs.dropWhile notSpace).length < n := by
          have := (List.dropWhile_sublist (p := notSpace) (l := cs)).length_le
          simp at hn
          omega
        exact h3 c cs (by simp at hc; simp [hc]) (ih _ hlen _ rfl)

theorem fields_singleton_of (t : List Char) (h1 : t ≠ [])
    (h2 : ∀ c ∈ t, isGoSpace c = false) : fields t = [t] := by
  obtain ⟨c, cs, rfl⟩ := List.exists_cons_of_ne_nil h1
  have hall : ∀ x ∈ cs, notSpace x = true := by
    intro x hx
    simp [notSpace, h2 x (List.mem_cons_of_mem c hx)]
  rw [fields_cons_notspace c cs (h2 c (List.mem_cons_self c cs)),
    List.takeWhile_eq_self_iff.mpr hall, List.dropWhile_eq_nil_iff.mpr hall]
  rfl

theorem fields_append_space (c : Char) (hc : isGoSpace c = true)
    (ys : List Char) :
    ∀ xs, fields (xs ++ c :: ys) = fields xs ++ fields ys := by
  apply fields_induction
    (motive := fun xs => fields (xs ++ c :: ys) = fields xs ++ fields ys)
  · simp [fields_cons_space c ys hc]
    rfl
  · intro d ds hd ihd
    simp [List.cons_append, fields_cons_space d _ hd, ihd]
  · intro d ds hd ihd
    have hcns : notSpace c = false := by simp [notSpace, hc]
    by_cases hall : ∀ x ∈ ds, notSpace x = true
    · rw [List.cons_append, fields_cons_notspace d _ hd,
        List.takeWhile_append_of_pos hall, List.dropWhile_append_of_pos hall,
        List.takeWhile_cons_of_neg (by simp [hcns]),
        List.dropWhile_cons_of_neg (by simp [hcns]),
        fields_cons_notspace d ds hd,
        List.takeWhile_eq_self_iff.mpr hall, List.dropWhile_eq_nil_iff.mpr hall,
        fields_cons_space c ys hc]
      simp
      rfl
    · have htk : ¬ (ds.takeWhile notSpace).length = ds.length := by
        intro hlen
        exact hall (List.takeWhile_eq_self_iff.mp
          ((List.takeWhile_sublist _).eq_of_length hlen))
      have hdw : ¬ (ds.dropWhile notSpace).isEmpty = true := by
        simp only [List.isEmpty_iff, List.dropWhile_eq_nil_iff]
        exact hall
      rw [List.cons_append, fields_cons_notspace d _ hd,
        List.takeWhile_append, if_neg htk,
        List.dropWhile_append, if_neg hdw,
        ihd, fields_cons_notspace d ds hd]
      simp

theorem joinTokens_fields (ts : List (List Char))
    (h : ∀ t ∈ ts, t ≠ [] ∧ ∀ c ∈ t, isGoSpace c = false) :
    fields (joinTokens ts) = ts := by
  induction ts with
  | nil => rfl
  | cons t rest ih =>
    match rest with
    | [] =>
      have ht := h t (List.mem_cons_self t [])
      exact fields_singleton_of t ht.1 ht.2
    | u :: rest' =>
      have ht := h t (List.mem_cons_self t _)
      rw [show joinTokens (t :: u :: rest') = t ++ ' ' :: joinTokens (u :: rest')
          from rfl,
        fields_append_space ' ' (by decide) _ t,
        fields_singleton_of t ht.1 ht.2,
        ih (fun v hv => h v (List.mem_cons_of_mem t hv))]
      rfl

theorem mem_fields (l : List Char) :
    ∀ t ∈ fields l, t ≠ [] ∧ ∀ c ∈ t, isGoSpace c = false := by
  induction l using fields_induction with
  | h1 => simp [fields, fieldsAux]
  | h2 c cs hc ih =>
    rw [fields_cons_space c cs hc]
    exact ih
  | h3 c cs hc ih =>
    rw [fields_cons_notspace c cs hc]
    intro t ht
    rcases List.mem_cons.mp ht with h | h
    · subst h
      refine ⟨by simp, ?_⟩
      intro x hx
      rcases List.mem_cons.mp hx with h | h
      · subst h
        exact hc
      · have := List.mem_takeWhile_imp h
        simp [notSpace] at this
        simp [this]
    · exact ih t h

theorem fields_eq_nil_mem (l : List Char) (h : fields l = []) :
    ∀ c ∈ l, isGoSpace c = true := by
  induction l using fields_induction with
  | h1 => simp
  | h2 c cs hc ih =>
    rw [fields_cons_space c cs hc] at h
    intro x hx
    rcases List.mem_cons.mp hx with hx | hx
    · subst hx
      exact hc
    · exact ih h x hx
  | h3 c cs hc ih =>
    rw [fields_cons_notspace c cs hc] at h
    exact absurd h (by simp)

theorem dropWhile_of_all_neg {p : Char → Bool} :
    ∀ l : List Char, (∀ x ∈ l, p x = false) → l.dropWhile p = l
  | [], _ => rfl
  | c :: cs, h =>
    List.dropWhile_cons_of_neg (by simp [h c (List.mem_cons_self c cs)])

theorem dropWhile_eq_self_of_head? {p : Char → Bool} (l : List Char)
    (h : ∀ c, l.head? = some c → p c = false) : l.dropWhile p = l := by
  match l with
  | [] => rfl
  | c :: cs => exact List.dropWhile_cons_of_neg (by simp [h c rfl])

theorem dropWhile_self_idem {p : Char → Bool} (l : List Char) :
    (l.dropWhile p).dropWhile p = l.dropWhile p := by
  apply dropWhile_eq_self_of_head?
  intro c hc
  have hm := List.head?_dropWhile_not p l
  rw [hc] at hm
  exact hm

theorem trimSpace_head? (s : List Char) (c : Char)
    (h : (trimSpace s).head? = some c) : isGoSpace c = false := by
  have hb : (trimSpace s).head? =
      ((s.dropWhile isGoSpace).reverse.dropWhile isGoSpace).reverse.head? := rfl
  rw [hb, ← List.getLast?_eq_head?_reverse] at h
  obtain ⟨pre, hpre⟩ :=
    List.dropWhile_suffix (p := isGoSpace) (l := (s.dropWhile isGoSpace).reverse)
  have ha : (s.dropWhile isGoSpace).reverse.getLast? = some c := by
    rw [← hpre, List.getLast?_append, h]
    rfl
  rw [List.getLast?_eq_head?_reverse, List.reverse_reverse] at ha
  have hm := List.head?_dropWhile_not isGoSpace s
  rw [ha] at hm
  exact hm

theorem trimSpace_idem (s : List Char) :
    trimSpace (trimSpace s) = trimSpace s := by
  have hstep1 : (trimSpace s).dropWhile isGoSpace = trimSpace s :=
    dropWhile_eq_self_of_head? _ (fun c hc => trimSpace_head? s c hc)
  have hrev : (trimSpace s).reverse =
      (s.dropWhile isGoSpace).reverse.dropWhile isGoSpace := by
    show ((((s.dropWhile isGoSpace).reverse.dropWhile isGoSpace).reverse)).reverse
        = _
    rw [List.reverse_reverse]
  have hstep2 : (trimSpace s).reverse.dropWhile isGoSpace =
      (trimSpace s).reverse := by
    rw [hrev]
    exact dropWhile_self_idem _
  show (((trimSpace s).dropWhile isGoSpace).reverse.dropWhile isGoSpace).reverse
      = trimSpace s
  rw [hstep1, hstep2, List.reverse_reverse]

theorem trimSpace_parts (t r : List Char) (h1 : t ≠ [])
    (h2 : ∀ c ∈ t, isGoSpace c = false) (h3 : ∀ c ∈ r, isGoSpace c = true) :
    trimSpace (t ++ r) = t := by
  obtain ⟨c, cs, rfl⟩ := List.exists_cons_of_ne_nil h1
  unfold trimSpace
  rw [List.cons_append,
    List.dropWhile_cons_of_neg (by simp [h2 c (List.mem_cons_self c cs)]),
    ← List.cons_append, List.reverse_append,
    List.dropWhile_append_of_pos
      (fun x hx => h3 x (List.mem_reverse.mp hx)),
    dropWhile_of_all_neg (c :: cs).reverse
      (fun x hx => h2 x (List.mem_reverse.mp hx)),
    List.reverse_reverse]

theorem fields_singleton_trim :
    ∀ l t, fields l = [t] → trimSpace l = t := by
  apply fields_induction
    (motive := fun l => ∀ t, fields l = [t] → trimSpace l = t)
  · intro t ht
    simp [fields, fieldsAux] at ht
  · intro c cs hc ih t ht
    rw [fields_cons_space c cs hc] at ht
    have htrim : trimSpace (c :: cs) = trimSpace cs := by
      unfold trimSpace
      rw [List.dropWhile_cons_of_pos (by simp [hc])]
    rw [htrim]
    exact ih t ht
  · intro c cs hc ih t ht
    rw [fields_cons_notspace c cs hc] at ht
    simp only [List.cons.injEq] at ht
    obtain ⟨ht1, ht2⟩ := ht
    have hdecomp : c :: cs =
        (c :: cs.takeWhile notSpace) ++ cs.dropWhile notSpace := by
      rw [List.cons_append, List.takeWhile_append_dropWhile]
    subst ht1
    rw [hdecomp]
    apply trimSpace_parts
    · simp
    · intro x hx
      rcases List.mem_cons.mp hx with hx | hx
      · subst hx
        exact hc
      · have := List.mem_takeWhile_imp hx
        simp [notSpace] at this
        simp [this]
    · exact fields_eq_nil_mem _ ht2

theorem trim_eq_nil_of_fields_nil (s : List Char)
    (h : fields (trimSpace s) = []) : trimSpace s = [] := by
  have hall := fields_eq_nil_mem _ h
  have h2 : (trimSpace s).dropWhile isGoSpace = [] :=
    List.dropWhile_eq_nil_iff.mpr hall
  have h3 : trimSpace (trimSpace s) =
      (((trimSpace s).dropWhile isGoSpace).reverse.dropWhile isGoSpace).reverse
    := rfl
  rw [← trimSpace_idem s, h3, h2]
  rfl

theorem trim_eq_token_of_fields_singleton (s t : List Char)
    (h : fields (trimSpace s) = [t]) : trimSpace s = t := by
  rw [← trimSpace_idem s]
  exact fields_singleton_trim (trimSpace s) t h

theorem splitCases_eq_uniform (ps : List (List Char)) (nc : List Char)
    (h : 2 ≤ ps.length) : splitCases ps nc = splitUniform ps := by
  match ps with
  | [] => exact absurd h (by simp)
  | [a] => exact absurd h (by simp)
  | [a, b] => simp [splitCases, splitUniform, joinTokens]
  | [a, b, c] => simp [splitCases, splitUniform, joinTokens]
  | a :: b :: c :: d :: rest =>
    simp only [splitCases, splitUniform,
      if_pos (show 2 ≤ (a :: b :: c :: d :: rest).length by simp),
      if_neg (show ¬ (a :: b :: c :: d :: rest).length = 2 by simp),
      if_neg (show ¬ (a :: b :: c :: d :: rest).length = 3 by simp)]

theorem splitNombre_nil_token (s : List Char) (h : fields (trimSpace s) = []) :
    splitNombre s = ⟨[], []⟩ := by
  unfold splitNombre
  rw [h, trim_eq_nil_of_fields_nil s h]
  rfl

theorem splitNombre_one_token (s t : List Char)
    (h : fields (trimSpace s) = [t]) : splitNombre s = ⟨t, []⟩ := by
  unfold splitNombre
  rw [h, trim_eq_token_of_fields_singleton s t h]
  rfl

theorem joinTokens_append :
    ∀ A B : List (List Char), A ≠ [] → B ≠ [] →
      joinTokens (A ++ B) = joinTokens A ++ ' ' :: joinTokens B
  | [], _, hA, _ => absurd rfl hA
  | [a], b :: bs, _, _ => by
    simp [joinTokens]
  | a :: a' :: A', B, _, hB => by
    rw [List.cons_append,
      show joinTokens (a :: (a' :: A' ++ B)) =
        a ++ ' ' :: joinTokens (a' :: A' ++ B) from by
          cases hAB : a' :: A' ++ B <;> simp_all [joinTokens],
      joinTokens_append (a' :: A') B (by simp) hB,
      show joinTokens (a :: a' :: A') = a ++ ' ' :: joinTokens (a' :: A')
        from rfl]
    simp

theorem utf8Size_of_digit (c : Char) (h : isDigitChar c = true) :
    c.utf8Size = 1 := by
  simp only [isDigitChar, Bool.and_eq_true, decide_eq_true_eq] at h
  have h9 : c.val ≤ ('9' : Char).val := Char.le_def.mp h.2
  have hle : c.val ≤ UInt32.ofNatCore 0x7F (by decide) :=
    UInt32.le_trans h9 (by decide)
  unfold Char.utf8Size
  exact if_pos hle

theorem goLen_eq_length (s : List Char)
    (h : ∀ c ∈ s, isDigitChar c = true) : goLen s = s.length := by
  induction s with
  | nil => rfl
  | cons c cs ih =>
    have h1 := utf8Size_of_digit c (h c (List.mem_cons_self c cs))
    simp only [goLen, List.map_cons, List.sum_cons, List.length_cons, h1]
    have h2 := ih (fun x hx => h x (List.mem_cons_of_mem c hx))
    simp only [goLen] at h2
    omega

theorem matchAt_false_of_ge (body : List Char) (i : Nat)
    (h : body.length < i + 10) : matchAt body i = false := by
  unfold matchAt
  rw [decide_eq_false (by omega)]
  simp

theorem findFrom_none_iff (body : List Char) :
    ∀ fuel i, findFrom body fuel i = none ↔
      ∀ j, i ≤ j → j < i + fuel → matchAt body j = false := by
  intro fuel
  induction fuel with
  | zero =>
    intro i
    simp only [findFrom, true_iff]
    intro j h1 h2
    omega
  | succ fuel ih =>
    intro i
    unfold findFrom
    by_cases hm : matchAt body i = true
    · rw [if_pos hm]
      constructor
      · intro h
        exact absurd h (by simp)
      · intro h
        exact absurd (h i (le_refl i) (by omega)) (by simp [hm])
    · rw [Bool.not_eq_true] at hm
      rw [if_neg (by simp [hm]), ih (i + 1)]
      constructor
      · intro h j h1 h2
        rcases Nat.eq_or_lt_of_le h1 with rfl | h1'
        · exact hm
        · exact h j h1' (by omega)
      · intro h j h1 h2
        exact h j (by omega) (by omega)

theorem findFrom_eq_some (body : List Char) :
    ∀ fuel i k, i ≤ k → k < i + fuel → matchAt body k = true →
      (∀ j, i ≤ j → j < k → matchAt body j = false) →
      findFrom body fuel i = some k := by
  intro fuel
  induction fuel with
  | zero =>
    intro i k h1 h2 h3 h4
    exact absurd h2 (by omega)
  | succ fuel ih =>
    intro i k h1 h2 h3 h4
    unfold findFrom
    rcases Nat.eq_or_lt_of_le h1 with rfl | h1'
    · rw [if_pos h3]
    · rw [if_neg (by simp [h4 i (le_refl i) h1'])]
      exact ih (i + 1) k h1' (by omega) h3 (fun j hj1 hj2 => h4 j (by omega) hj2)

theorem findCedula_none_iff (body : List Char) :
    findCedula body = none ↔ ∀ i, matchAt body i = false := by
  unfold findCedula
  constructor
  · intro h i
    match hf : findFrom body (body.length + 1) 0 with
    | some k => rw [hf] at h; exact absurd h (by simp)
    | none =>
      have hall := (findFrom_none_iff body (body.length + 1) 0).mp hf
      by_cases hi : i < body.length + 1
      · exact hall i (by omega) (by omega)
      · exact matchAt_false_of_ge body i (by omega)
  · intro h
    rw [(findFrom_none_iff body (body.length + 1) 0).mpr
      (fun j _ _ => h j)]

theorem findCedula_first_match (body : List Char) (i : Nat)
    (h1 : matchAt body i = true) (h2 : ∀ j, j < i → matchAt body j = false) :
    findCedula body = some ((body.drop i).take 10) := by
  have hlen : i + 10 ≤ body.length := by
    by_contra hc
    rw [matchAt_false_of_ge body i (by omega)] at h1
    exact absurd h1 (by simp)
  unfold findCedula
  rw [findFrom_eq_some body (body.length + 1) 0 i (by omega) (by omega) h1
    (fun j _ hj => h2 j hj)]

/-! ### The claims -/

/-- C1: the name-splitter follows the fixed token-count policy: two tokens
give (token 0, token 1); three tokens give (token 0, tokens 1-2 joined by a
single space); four or more tokens split at `floor(n / 2)`, the given name
taking the first half and the surname the rest, so an odd count leaves the
extra token on the surname side. -/
theorem name_splitter_token_policy (s : List Char) :
    (∀ t0 t1, fields (trimSpace s) = [t0, t1] → splitNombre s = ⟨t0, t1⟩) ∧
    (∀ t0 t1 t2, fields (trimSpace s) = [t0, t1, t2] →
      splitNombre s = ⟨t0, t1 ++ ' ' :: t2⟩) ∧
    (4 ≤ (fields (trimSpace s)).length →
      splitNombre s =
        ⟨joinTokens ((fields (trimSpace s)).take
            ((fields (trimSpace s)).length / 2)),
         joinTokens ((fields (trimSpace s)).drop
            ((fields (trimSpace s)).length / 2))⟩) := by
  refine ⟨?_, ?_, ?_⟩
  · intro t0 t1 h
    unfold splitNombre
    rw [h]
    simp [splitCases]
  · intro t0 t1 t2 h
    unfold splitNombre
    rw [h]
    simp [splitCases, joinTokens]
  · intro h
    unfold splitNombre
    rw [splitCases_eq_uniform _ _ (by omega)]
    rfl

/-- Witness for C1 at the five-token name of the spec's example: two
given-name tokens and three surname tokens. -/
theorem name_splitter_token_policy_witness :
    4 ≤ (fields (trimSpace "Juan Carlos Perez Gomez Lopez".toList)).length ∧
    splitNombre "Juan Carlos Perez Gomez Lopez".toList =
      ⟨"Juan Carlos".toList, "Perez Gomez Lopez".toList⟩ :=
  ⟨by decide, by
    rw [(name_splitter_token_policy "Juan Carlos Perez Gomez Lopez".toList).2.2
      (by decide)]
    decide⟩

/-- C2: `validarCedula` accepts exactly the strings of length 10 whose
characters are all ASCII decimal digits; no other constraint applies. -/
theorem validarCedula_iff (s : List Char) :
    validarCedula s = true ↔
      s.length = 10 ∧ ∀ c ∈ s, isDigitChar c = true := by
  unfold validarCedula matchDigitsAnchored
  constructor
  · intro h
    by_cases hg : goLen s ≠ 10
    · rw [if_pos hg] at h
      exact absurd h (by simp)
    · rw [if_neg hg] at h
      simp only [Bool.and_eq_true, List.all_eq_true] at h
      refine ⟨?_, h.2⟩
      have hlen := goLen_eq_length s h.2
      omega
  · intro h
    have hlen := goLen_eq_length s h.2
    rw [if_neg (by omega)]
    simp only [Bool.and_eq_true, List.all_eq_true]
    refine ⟨?_, h.2⟩
    have : s ≠ [] := by
      intro hnil
      rw [hnil] at h
      simp at h
    simp [this]

/-- Witness for C2 at a concrete valid identifier. -/
theorem validarCedula_iff_witness :
    validarCedula "1710034065".toList = true :=
  (validarCedula_iff "1710034065".toList).mpr ⟨by decide, by decide⟩

/-- C5: the name-splitter is total — it is a Lean function defined on every
input string — and on zero tokens it returns ("", "") while on one token it
returns (that token, ""). -/
theorem name_split_total (s : List Char) :
    (fields (trimSpace s) = [] → splitNombre s = ⟨[], []⟩) ∧
    (∀ t, fields (trimSpace s) = [t] → splitNombre s = ⟨t, []⟩) :=
  ⟨splitNombre_nil_token s, fun t h => splitNombre_one_token s t h⟩

/-- Witness for C5 at a one-token and an empty input. -/
theorem name_split_total_witness :
    splitNombre "Maria".toList = ⟨"Maria".toList, []⟩ ∧
    splitNombre "".toList = ⟨[], []⟩ :=
  ⟨(name_split_total "Maria".toList).2 "Maria".toList (by decide),
   (name_split_total "".toList).1 (by decide)⟩

/-- C8: on every token sequence of length at least two, the case-split
implementation (explicit branches for 2, 3 and ≥ 4 tokens) agrees with the
uniform splitter that always takes the first `floor(n / 2)` tokens as the
given name. -/
theorem splitCases_refines_splitUniform (ps : List (List Char))
    (nc : List Char) (h : 2 ≤ ps.length) :
    splitCases ps nc = splitUniform ps :=
  splitCases_eq_uniform ps nc h

/-- Witness for C8 at the three-token sequence of "Juan Carlos Perez". -/
theorem splitCases_refines_splitUniform_witness :
    splitCases ["Juan".toList, "Carlos".toList, "Perez".toList] [] =
      splitUniform ["Juan".toList, "Carlos".toList, "Perez".toList] :=
  splitCases_refines_splitUniform
    ["Juan".toList, "Carlos".toList, "Perez".toList] [] (by decide)

/-- C9: the name-split partitions the input's tokens — joining the two
halves with a single space and re-tokenizing recovers exactly the token
sequence of the trimmed input. -/
theorem name_split_partition (s : List Char) :
    fields ((splitNombre s).nombre ++ ' ' :: (splitNombre s).apellido) =
      fields (trimSpace s) := by
  by_cases h2 : 2 ≤ (fields (trimSpace s)).length
  · have hsplit : splitNombre s = splitUniform (fields (trimSpace s)) := by
      unfold splitNombre
      exact splitCases_eq_uniform _ _ h2
    rw [hsplit]
    have hm2 : (fields (trimSpace s)).length / 2 <
        (fields (trimSpace s)).length := by omega
    have htake : (fields (trimSpace s)).take
        ((fields (trimSpace s)).length / 2) ≠ [] := by
      apply List.ne_nil_of_length_pos
      rw [List.length_take]
      omega
    have hdrop : (fields (trimSpace s)).drop
        ((fields (trimSpace s)).length / 2) ≠ [] := by
      apply List.ne_nil_of_length_pos
      rw [List.length_drop]
      omega
    show fields
        (joinTokens ((fields (trimSpace s)).take
            ((fields (trimSpace s)).length / 2)) ++
          ' ' :: joinTokens ((fields (trimSpace s)).drop
            ((fields (trimSpace s)).length / 2))) =
      fields (trimSpace s)
    rw [← joinTokens_append _ _ htake hdrop, List.take_append_drop]
    exact joinTokens_fields _ (mem_fields (trimSpace s))
  · rcases hf : fields (trimSpace s) with _ | ⟨t, _ | ⟨t', rest⟩⟩
    · rw [splitNombre_nil_token s hf]
      rfl
    · rw [splitNombre_one_token s t hf]
      show fields (t ++ ' ' :: []) = [t]
      rw [fields_append_space ' ' (by decide) [] t]
      have hmem : t ∈ fields (trimSpace s) := by
        rw [hf]
        exact List.mem_cons_self t []
      have ht := mem_fields (trimSpace s) t hmem
      rw [fields_singleton_of t ht.1 ht.2]
      rfl
    · rw [hf] at h2
      exact absurd (by simp : 2 ≤ (t :: t' :: rest).length) h2

/-- Counterexample for C3: a non-200 upstream status yields the
"cédula no encontrada" error, so the endpoint answers 404, not 500. -/
theorem upstream_non200_cex :
    (manejarConsulta "POST".toList (.ok "1710034065".toList)
      (.resp 500 .malformed)).status = 404 ∧
    ¬ (manejarConsulta "POST".toList (.ok "1710034065".toList)
      (.resp 500 .malformed)).status = 500 := by
  decide

/-- C3 amended: for every lookup whose upstream answers with a non-200
status, `consultarCedula` fails with the not-found error and the endpoint
returns 404 (not 500): non-200 upstream status is classified as not found,
not as a processing error. -/
theorem upstream_non200_amended (ced : List Char) (st : Nat) (b : BodyParse)
    (hst : st ≠ 200) (hv : validarCedula ced = true) :
    consultarCedula (.resp st b) = .error .noEncontrada ∧
    (manejarConsulta "POST".toList (.ok ced) (.resp st b)).status = 404 := by
  have h1 : consultarCedula (.resp st b) = .error .noEncontrada := by
    simp [consultarCedula, hst]
  refine ⟨h1, ?_⟩
  unfold manejarConsulta
  rw [if_neg (by decide), if_neg (by decide)]
  simp [hv, h1, esNoEncontrada]

/-- Witness for C3's amended claim at status 500. -/
theorem upstream_non200_amended_witness :
    consultarCedula (.resp 500 .malformed) = .error .noEncontrada ∧
    (manejarConsulta "POST".toList (.ok "1234567890".toList)
      (.resp 500 .malformed)).status = 404 :=
  upstream_non200_amended "1234567890".toList 500 .malformed
    (by decide) (by decide)

/-- Counterexample for C4: a parsed 200 response whose preferred field is a
single space (so both fields trim to empty) is NOT treated as not found —
the lookup succeeds with an empty split and the endpoint answers 200. -/
theorem whitespace_name_cex :
    consultarCedula (.resp 200 (.parsed
      ⟨"1710034065".toList, [' '], [], []⟩)) = .ok ⟨[], []⟩ ∧
    trimSpace [' '] = [] ∧
    (manejarConsulta "POST".toList (.ok "1710034065".toList)
      (.resp 200 (.parsed ⟨"1710034065".toList, [' '], [], []⟩))).status
      = 200 :=
  ⟨rfl, rfl, rfl⟩

/-- C4 amended: on a parsed 200 response the full name is taken from the
primary field `denominacion` first and the fallback `nombreComercial`
second, and the identifier is treated as not found exactly when both
fields are the empty string — the emptiness test applies no whitespace
trimming, so whitespace-only fields count as found. -/
theorem extract_nombre_amended (c : Contribuyente) :
    (consultarCedula (.resp 200 (.parsed c)) = .error .noEncontrada ↔
      c.denominacion = [] ∧ c.nombreComercial = []) ∧
    (c.denominacion ≠ [] →
      consultarCedula (.resp 200 (.parsed c)) =
        .ok (splitNombre c.denominacion)) ∧
    (c.denominacion = [] → c.nombreComercial ≠ [] →
      consultarCedula (.resp 200 (.parsed c)) =
        .ok (splitNombre c.nombreComercial)) := by
  unfold consultarCedula
  by_cases hd : c.denominacion = []
  · by_cases hn : c.nombreComercial = []
    · simp [hd, hn]
    · simp [hd, hn]
  · simp [hd]

/-- Witness for C4's amended claim with a non-empty primary field. -/
theorem extract_nombre_amended_witness :
    consultarCedula (.resp 200 (.parsed
      ⟨"1710034065".toList, "JUAN PEREZ".toList, [], []⟩)) =
      .ok (splitNombre "JUAN PEREZ".toList) :=
  (extract_nombre_amended
    ⟨"1710034065".toList, "JUAN PEREZ".toList, [], []⟩).2.1 (by decide)

/-- C6: a POST whose decoded identifier fails validation is answered 400
with the JSON error body, and no outbound call to the upstream is made. -/
theorem invalid_cedula_400 (ced : List Char) (up : Upstream)
    (h : validarCedula ced = false) :
    manejarConsulta "POST".toList (.ok ced) up =
      ⟨400, .errJson
        ⟨"Cédula inválida. Debe contener exactamente 10 dígitos".toList⟩,
        true, false⟩ := by
  unfold manejarConsulta
  rw [if_neg (by decide), if_neg (by decide)]
  simp [h]

/-- Witness for C6 at the too-short identifier "123". -/
theorem invalid_cedula_400_witness :
    manejarConsulta "POST".toList (.ok "123".toList) .netErr =
      ⟨400, .errJson
        ⟨"Cédula inválida. Debe contener exactamente 10 dígitos".toList⟩,
        true, false⟩ :=
  invalid_cedula_400 "123".toList .netErr (by decide)

/-- Counterexample for C7: in "A1234567890" the last ten characters are a
run of exactly ten digits bounded by a non-digit on the left and the string
end on the right, yet the scan reports "not found", because `\b` is a word
boundary and the letter A is a word character. -/
theorem reverse_lookup_word_boundary_cex :
    consultarPorNombres "JUAN".toList "PEREZ".toList
      (.resp "A1234567890".toList) = .error .noInfo ∧
    ("A1234567890".toList.drop 1).length = 10 ∧
    ("A1234567890".toList.drop 1).all isDigitChar = true ∧
    isDigitChar 'A' = false :=
  ⟨rfl, rfl, rfl, rfl⟩

/-- C7 amended: the reverse lookup extracts the first substring of exactly
ten consecutive decimal digits bounded by non-WORD characters (ASCII
letters, digits and underscore are word characters) or string boundaries —
the `\b\d{10}\b` match; the leftmost such match is returned, and if none
exists the result is "not found". -/
theorem reverse_lookup_first_match (n a body : List Char) :
    (consultarPorNombres n a (.resp body) = .error .noInfo ↔
      ∀ i, matchAt body i = false) ∧
    (∀ i, matchAt body i = true → (∀ j, j < i → matchAt body j = false) →
      consultarPorNombres n a (.resp body) =
        .ok ⟨(body.drop i).take 10, n, a⟩) := by
  constructor
  · constructor
    · intro h
      apply (findCedula_none_iff body).mp
      match hf : findCedula body with
      | none => rfl
      | some ced =>
        have hok : consultarPorNombres n a (.resp body) = .ok ⟨ced, n, a⟩ := by
          simp [consultarPorNombres, hf]
        rw [hok] at h
        exact absurd h (by simp)
    · intro h
      simp [consultarPorNombres, (findCedula_none_iff body).mpr h]
  · intro i h1 h2
    simp [consultarPorNombres, findCedula_first_match body i h1 h2]

/-- Witness for C7's amended claim: the match at position 1 of
" 1234567890 x" is the leftmost one and is returned. -/
theorem reverse_lookup_first_match_witness :
    matchAt " 1234567890 x".toList 1 = true ∧
    consultarPorNombres "JUAN".toList "PEREZ".toList
      (.resp " 1234567890 x".toList) =
      .ok ⟨(" 1234567890 x".toList.drop 1).take 10,
        "JUAN".toList, "PEREZ".toList⟩ :=
  ⟨by decide,
   (reverse_lookup_first_match "JUAN".toList "PEREZ".toList
      " 1234567890 x".toList).2 1 (by decide)
    (fun j hj => by
      have hj0 : j = 0 := by omega
      subst hj0
      decide)⟩

/-- C10: a request to either API endpoint whose method is neither POST nor
OPTIONS is answered 405 with the JSON error body, the CORS headers are
still set, and no outbound call is made. -/
theorem method_not_allowed_405 (m : List Char)
    (h1 : m ≠ "OPTIONS".toList) (h2 : m ≠ "POST".toList) :
    (∀ (rb : CedulaDecode) (up : Upstream),
      manejarConsulta m rb up =
        ⟨405, .errJson ⟨"Método no permitido".toList⟩, true, false⟩) ∧
    (∀ (rb : NombresDecode) (up : UpstreamText),
      manejarConsultaPorNombres m rb up =
        ⟨405, .errJson ⟨"Método no permitido".toList⟩, true, false⟩) := by
  constructor
  · intro rb up
    unfold manejarConsulta
    rw [if_neg h1, if_pos h2]
  · intro rb up
    unfold manejarConsultaPorNombres
    rw [if_neg h1, if_pos h2]

/-- Witness for C10 at method GET on both endpoints. -/
theorem method_not_allowed_405_witness :
    manejarConsulta "GET".toList .invalid .netErr =
      ⟨405, .errJson ⟨"Método no permitido".toList⟩, true, false⟩ ∧
    manejarConsultaPorNombres "GET".toList .invalid .netErr =
      ⟨405, .errJson ⟨"Método no permitido".toList⟩, true, false⟩ :=
  ⟨(method_not_allowed_405 "GET".toList (by decide) (by decide)).1
      .invalid .netErr,
   (method_not_allowed_405 "GET".toList (by decide) (by decide)).2
      .invalid .netErr⟩

end Cedula
